import Mathlib

/-!
Verification of the mp_api client facade (`src/mp_api/matproj.py`) and of the
chunked retrieval protocol its spec describes.  The Chunked Query Executor
lives in `mp_api/core/client.py`, which is not part of the source tree here
(only its tests and callers are), so that component is modelled from the
spec text; everything about `MPRester` itself is translated from
`src/mp_api/matproj.py`.

Identifiers (MPIDs, task ids) are modelled as `Nat`; endpoint suffixes and
textual identifiers are modelled as `List Char`.
-/

/-- Modelled from the spec: the Chunked Query Executor of `mp_api/core/client.py`
(not under src/) partitions the identifier list into consecutive chunks of size
`size`, the last chunk possibly smaller (spec §4.2 step 3).  `fuel` bounds the
recursion; it is instantiated with the list length in `chunks`, which suffices
whenever `0 < size`. -/
def chunksGo (size : Nat) : Nat → List α → List (List α)
  | 0, _ => []
  | _ + 1, [] => []
  | fuel + 1, a :: t => ((a :: t).take size) :: chunksGo size fuel ((a :: t).drop size)

/-- Modelled from the spec: partition a list into consecutive chunks of size
`size`, last chunk possibly smaller (spec §4.2 step 3). -/
def chunks (size : Nat) (l : List α) : List (List α) :=
  chunksGo size l.length l

theorem chunksGo_nil (size fuel : Nat) : chunksGo size fuel ([] : List α) = [] := by
  cases fuel <;> rfl

theorem chunksGo_flatten (size : Nat) (hs : 0 < size) :
    ∀ (fuel : Nat) (l : List α), l.length ≤ fuel → (chunksGo size fuel l).flatten = l := by
  intro fuel
  induction fuel with
  | zero =>
    intro l hl
    have : l = [] := List.eq_nil_of_length_eq_zero (Nat.le_zero.mp hl)
    subst this
    rfl
  | succ n ih =>
    intro l hl
    cases l with
    | nil => rfl
    | cons a t =>
      show (((a :: t).take size) :: chunksGo size n ((a :: t).drop size)).flatten = a :: t
      rw [List.flatten_cons, ih ((a :: t).drop size) (by simp at hl ⊢; omega)]
      exact List.take_append_drop size (a :: t)

theorem chunks_flatten (size : Nat) (hs : 0 < size) (l : List α) :
    (chunks size l).flatten = l :=
  chunksGo_flatten size hs l.length l (Nat.le_refl _)

theorem chunksGo_mem_length_le (size : Nat) :
    ∀ (fuel : Nat) (l : List α), ∀ c ∈ chunksGo size fuel l, c.length ≤ size := by
  intro fuel
  induction fuel with
  | zero =>
    intro l c hc
    simp [chunksGo] at hc
  | succ n ih =>
    intro l c hc
    cases l with
    | nil => simp [chunksGo_nil] at hc
    | cons a t =>
      rcases List.mem_cons.mp hc with h | h
      · subst h
        simp [List.length_take]
      · exact ih _ c h

theorem chunks_mem_length_le (size : Nat) (l : List α) :
    ∀ c ∈ chunks size l, c.length ≤ size :=
  chunksGo_mem_length_le size l.length l

theorem chunksGo_dropLast_length (size : Nat) (hs : 0 < size) :
    ∀ (fuel : Nat) (l : List α), l.length ≤ fuel →
      ∀ c ∈ (chunksGo size fuel l).dropLast, c.length = size := by
  intro fuel
  induction fuel with
  | zero =>
    intro l hl c hc
    simp [chunksGo] at hc
  | succ n ih =>
    intro l hl c hc
    cases l with
    | nil => simp [chunksGo_nil] at hc
    | cons a t =>
      have hgo : chunksGo size (n + 1) (a :: t)
          = ((a :: t).take size) :: chunksGo size n ((a :: t).drop size) := rfl
      rw [hgo] at hc
      by_cases hrest : chunksGo size n ((a :: t).drop size) = []
      · rw [hrest] at hc
        simp at hc
      · rw [List.dropLast_cons_of_ne_nil hrest] at hc
        rcases List.mem_cons.mp hc with h | h
        · subst h
          have hd : (a :: t).drop size ≠ [] := by
            intro hdrop
            rw [hdrop, chunksGo_nil] at hrest
            exact hrest rfl
          have hlt : size < (a :: t).length := by
            by_contra hge
            push_neg at hge
            exact hd (List.drop_eq_nil_of_le hge)
          simp [List.length_take, List.length_cons] at hlt ⊢
          omega
        · exact ih _ (by simp at hl ⊢; omega) c h

theorem chunks_dropLast_length (size : Nat) (hs : 0 < size) (l : List α) :
    ∀ c ∈ (chunks size l).dropLast, c.length = size :=
  chunksGo_dropLast_length size hs l.length l (Nat.le_refl _)

theorem chunksGo_congr (size : Nat) (hs : 0 < size) :
    ∀ (f1 f2 : Nat) (l : List α), l.length ≤ f1 → l.length ≤ f2 →
      chunksGo size f1 l = chunksGo size f2 l := by
  intro f1
  induction f1 with
  | zero =>
    intro f2 l h1 h2
    have : l = [] := List.eq_nil_of_length_eq_zero (Nat.le_zero.mp h1)
    subst this
    rw [chunksGo_nil, chunksGo_nil]
  | succ n ih =>
    intro f2 l h1 h2
    cases l with
    | nil => rw [chunksGo_nil, chunksGo_nil]
    | cons a t =>
      cases f2 with
      | zero => simp at h2
      | succ m =>
        show ((a :: t).take size) :: chunksGo size n ((a :: t).drop size)
            = ((a :: t).take size) :: chunksGo size m ((a :: t).drop size)
        have hlen : ((a :: t).drop size).length ≤ n := by
          simp at h1 ⊢
          omega
        have hlen2 : ((a :: t).drop size).length ≤ m := by
          simp at h2 ⊢
          omega
        rw [ih m ((a :: t).drop size) hlen hlen2]

theorem chunks_cons_eq (size : Nat) (hs : 0 < size) (l : List α) (hl : l ≠ []) :
    chunks size l = l.take size :: chunks size (l.drop size) := by
  cases l with
  | nil => exact absurd rfl hl
  | cons a t =>
    show ((a :: t).take size) :: chunksGo size t.length ((a :: t).drop size)
        = ((a :: t).take size) :: chunksGo size ((a :: t).drop size).length ((a :: t).drop size)
    rw [chunksGo_congr size hs t.length ((a :: t).drop size).length ((a :: t).drop size)
      (by simp; omega) (Nat.le_refl _)]

theorem chunksGo_take_flatten (size : Nat) (hs : 0 < size) :
    ∀ (k fuel : Nat) (l : List α), l.length ≤ fuel →
      ((chunksGo size fuel l).take k).flatten = l.take (k * size) := by
  intro k
  induction k with
  | zero => simp
  | succ k ih =>
    intro fuel l hl
    cases fuel with
    | zero =>
      have : l = [] := List.eq_nil_of_length_eq_zero (Nat.le_zero.mp hl)
      subst this
      simp [chunksGo]
    | succ n =>
      cases l with
      | nil => simp [chunksGo_nil]
      | cons a t =>
        show (((((a :: t).take size) :: chunksGo size n ((a :: t).drop size)).take (k + 1)).flatten)
            = (a :: t).take ((k + 1) * size)
        rw [List.take_succ_cons, List.flatten_cons,
          ih n ((a :: t).drop size) (by simp at hl ⊢; omega)]
        rw [Nat.succ_mul, Nat.add_comm (k * size) size, List.take_add]

theorem chunks_take_flatten (size : Nat) (hs : 0 < size) (k : Nat) (l : List α) :
    ((chunks size l).take k).flatten = l.take (k * size) :=
  chunksGo_take_flatten size hs k l.length l (Nat.le_refl _)

/-- Modelled from the spec: step 4/5 of the Chunked Query Executor with no
failures — fetch every chunk's full records from the backend `db` (one document
per identifier, in the chunk's order) and concatenate in chunk order. -/
def chunkedFetch (db : Nat → β) (ids : List Nat) (size : Nat) : List β :=
  ((chunks size ids).map (fun c => c.map db)).flatten

theorem chunkedFetch_eq_map (db : Nat → β) (ids : List Nat) (size : Nat) (hs : 0 < size) :
    chunkedFetch db ids size = ids.map db := by
  show ((chunks size ids).map (fun c => c.map db)).flatten = ids.map db
  rw [← List.map_flatten, chunks_flatten size hs]

theorem chunks_len_2500 (l : List α) (hl : l.length = 2500) :
    (chunks 1000 l).map List.length = [1000, 1000, 500] := by
  have hne : l ≠ [] := by
    intro h
    rw [h] at hl
    simp at hl
  have h1 : chunks 1000 l = l.take 1000 :: chunks 1000 (l.drop 1000) :=
    chunks_cons_eq 1000 (by omega) l hne
  have hd1 : (l.drop 1000).length = 1500 := by
    simp [List.length_drop, hl]
  have hne1 : l.drop 1000 ≠ [] := by
    intro h
    rw [h] at hd1
    simp at hd1
  have h2 : chunks 1000 (l.drop 1000)
      = (l.drop 1000).take 1000 :: chunks 1000 ((l.drop 1000).drop 1000) :=
    chunks_cons_eq 1000 (by omega) _ hne1
  have hd2 : ((l.drop 1000).drop 1000).length = 500 := by
    simp [List.length_drop, hl]
  have hne2 : (l.drop 1000).drop 1000 ≠ [] := by
    intro h
    rw [h] at hd2
    simp at hd2
  have h3 : chunks 1000 ((l.drop 1000).drop 1000)
      = ((l.drop 1000).drop 1000).take 1000
          :: chunks 1000 (((l.drop 1000).drop 1000).drop 1000) :=
    chunks_cons_eq 1000 (by omega) _ hne2
  have hd3 : ((l.drop 1000).drop 1000).drop 1000 = [] := by
    apply List.eq_nil_of_length_eq_zero
    simp [List.length_drop, hl]
  rw [h1, h2, h3, hd3]
  show _ = [1000, 1000, 500]
  rw [show chunks 1000 ([] : List α) = [] from rfl]
  simp [List.length_take, hl, hd1, hd2]

/-- C1: for every criteria whose matching identifier list has length N and every
positive chunk_size, the Chunked Query Executor partitions the identifier list
into consecutive chunks of size chunk_size with only the last chunk possibly
smaller, the concatenated result sequence has length exactly N, and for
N = 2500 with chunk_size = 1000 it fetches 3 chunks of sizes [1000, 1000, 500]
in order and returns 2500 results. -/
theorem c1_chunk_partition (ids : List Nat) (size : Nat) (db : Nat → Nat)
    (hs : 0 < size) :
    (chunks size ids).flatten = ids
    ∧ (chunkedFetch db ids size).length = ids.length
    ∧ (∀ c ∈ chunks size ids, c.length ≤ size)
    ∧ (∀ c ∈ (chunks size ids).dropLast, c.length = size)
    ∧ (ids.length = 2500 → size = 1000 →
        (chunks size ids).map List.length = [1000, 1000, 500]
        ∧ (chunkedFetch db ids size).length = 2500) := by
  refine ⟨chunks_flatten size hs ids, ?_, chunks_mem_length_le size ids,
    chunks_dropLast_length size hs ids, ?_⟩
  · rw [chunkedFetch_eq_map db ids size hs, List.length_map]
  · intro hn hsz
    subst hsz
    exact ⟨chunks_len_2500 ids hn,
      by rw [chunkedFetch_eq_map db ids 1000 hs, List.length_map, hn]⟩

/-- C1 witness: the partition property evaluated on a concrete 8-element
identifier list with chunk_size 3. -/
theorem c1_chunk_partition_witness :
    (chunks 3 [0, 1, 2, 3, 4, 5, 6, 7]).flatten = [0, 1, 2, 3, 4, 5, 6, 7] :=
  (c1_chunk_partition [0, 1, 2, 3, 4, 5, 6, 7] 3 (fun x => x) (by decide)).1

/-- Modelled from the spec: `ChunkRetrievalError` carries the identifiers of the
chunk that could not be retrieved after exhausting retries (spec §7). -/
structure ChunkRetrievalError where
  ids : List Nat
deriving DecidableEq

/-- Modelled from the spec: step 4 of the Chunked Query Executor — a single
chunk is fetched with up to `tries` attempts; `failsAt a` says whether attempt
number `a` (counted from `attempt`) fails transiently.  `none` means every
attempt failed; otherwise the chunk's full records are returned. -/
def retryFetch (db : Nat → β) (failsAt : Nat → Bool) (c : List Nat) :
    Nat → Nat → Option (List β)
  | 0, _ => none
  | tries + 1, attempt =>
    if failsAt attempt then retryFetch db failsAt c tries (attempt + 1)
    else some (c.map db)

/-- Modelled from the spec: fetch the chunks in order (chunk number starting at
`i`), retrying each up to `maxTries` times; on exhausting the retries of any
chunk the whole operation fails with `ChunkRetrievalError` carrying that
chunk's identifiers, and no results are returned (spec §4.2 step 4, §7). -/
def fetchChunks (db : Nat → β) (failsAt : Nat → Nat → Bool) (maxTries : Nat) :
    List (List Nat) → Nat → Except ChunkRetrievalError (List β)
  | [], _ => .ok []
  | c :: rest, i =>
    match retryFetch db (failsAt i) c maxTries 0 with
    | none => .error ⟨c⟩
    | some docs =>
      match fetchChunks db failsAt maxTries rest (i + 1) with
      | .error e => .error e
      | .ok ds => .ok (docs ++ ds)

/-- Modelled from the spec: the whole chunked fetch with per-chunk retries.
`failsAt i a` says whether attempt `a` on chunk number `i` fails transiently. -/
def chunkedFetchRetry (db : Nat → β) (failsAt : Nat → Nat → Bool)
    (ids : List Nat) (size maxTries : Nat) : Except ChunkRetrievalError (List β) :=
  fetchChunks db failsAt maxTries (chunks size ids) 0

theorem retryFetch_none (db : Nat → β) (failsAt : Nat → Bool) (c : List Nat) :
    ∀ (tries attempt : Nat), (∀ a, attempt ≤ a → a < attempt + tries → failsAt a = true) →
      retryFetch db failsAt c tries attempt = none := by
  intro tries
  induction tries with
  | zero => intro attempt h; rfl
  | succ n ih =>
    intro attempt h
    show (if failsAt attempt then retryFetch db failsAt c n (attempt + 1)
      else some (c.map db)) = none
    rw [h attempt (Nat.le_refl _) (by omega), if_pos rfl]
    exact ih (attempt + 1) (fun a ha1 ha2 => h a (by omega) (by omega))

theorem retryFetch_some (db : Nat → β) (failsAt : Nat → Bool) (c : List Nat) :
    ∀ (tries attempt : Nat),
      (∃ a, attempt ≤ a ∧ a < attempt + tries ∧ failsAt a = false) →
      retryFetch db failsAt c tries attempt = some (c.map db) := by
  intro tries
  induction tries with
  | zero =>
    intro attempt h
    rcases h with ⟨a, h1, h2, _⟩
    omega
  | succ n ih =>
    intro attempt h
    show (if failsAt attempt then retryFetch db failsAt c n (attempt + 1)
      else some (c.map db)) = some (c.map db)
    by_cases hf : failsAt attempt = true
    · rw [if_pos hf]
      apply ih (attempt + 1)
      rcases h with ⟨a, h1, h2, h3⟩
      refine ⟨a, ?_, by omega, h3⟩
      rcases Nat.eq_or_lt_of_le h1 with heq | hlt
      · rw [← heq] at h3
        rw [h3] at hf
        exact Bool.noConfusion hf
      · omega
    · rw [if_neg hf]

theorem fetchChunks_error (db : Nat → β) (failsAt : Nat → Nat → Bool) (maxTries : Nat) :
    ∀ (cs : List (List Nat)) (k i : Nat) (c : List Nat),
      cs[i]? = some c →
      (∀ a, a < maxTries → failsAt (k + i) a = true) →
      (∀ j, j < i → ∃ a, a < maxTries ∧ failsAt (k + j) a = false) →
      fetchChunks db failsAt maxTries cs k = .error ⟨c⟩ := by
  intro cs
  induction cs with
  | nil =>
    intro k i c hc hfail hok
    simp at hc
  | cons c0 rest ih =>
    intro k i c hc hfail hok
    cases i with
    | zero =>
      have hc0 : c0 = c := by simpa using hc
      rw [← hc0]
      show (match retryFetch db (failsAt k) c0 maxTries 0 with
        | none => Except.error ⟨c0⟩
        | some docs =>
          match fetchChunks db failsAt maxTries rest (k + 1) with
          | .error e => Except.error e
          | .ok ds => Except.ok (docs ++ ds)) = Except.error ⟨c0⟩
      rw [retryFetch_none db (failsAt k) c0 maxTries 0
        (fun a _ ha => by simpa using hfail a (by omega))]
    | succ j =>
      have hsucc : retryFetch db (failsAt k) c0 maxTries 0 = some (c0.map db) := by
        apply retryFetch_some
        rcases hok 0 (by omega) with ⟨a, ha1, ha2⟩
        exact ⟨a, by omega, by omega, by simpa using ha2⟩
      show (match retryFetch db (failsAt k) c0 maxTries 0 with
        | none => Except.error ⟨c0⟩
        | some docs =>
          match fetchChunks db failsAt maxTries rest (k + 1) with
          | .error e => Except.error e
          | .ok ds => Except.ok (docs ++ ds)) = Except.error ⟨c⟩
      rw [hsucc]
      have hrec : fetchChunks db failsAt maxTries rest (k + 1) = .error ⟨c⟩ := by
        apply ih (k + 1) j c (by simpa using hc)
        · intro a ha
          have := hfail a ha
          rw [show k + 1 + j = k + (j + 1) from by omega]
          exact this
        · intro m hm
          rcases hok (m + 1) (by omega) with ⟨a, ha1, ha2⟩
          refine ⟨a, ha1, ?_⟩
          rw [show k + 1 + m = k + (m + 1) from by omega]
          exact ha2
      rw [hrec]

theorem fetchChunks_ok (db : Nat → β) (failsAt : Nat → Nat → Bool) (maxTries : Nat) :
    ∀ (cs : List (List Nat)) (k : Nat),
      (∀ j, j < cs.length → ∃ a, a < maxTries ∧ failsAt (k + j) a = false) →
      fetchChunks db failsAt maxTries cs k = .ok (cs.flatten.map db) := by
  intro cs
  induction cs with
  | nil =>
    intro k hok
    rfl
  | cons c0 rest ih =>
    intro k hok
    have hsucc : retryFetch db (failsAt k) c0 maxTries 0 = some (c0.map db) := by
      apply retryFetch_some
      rcases hok 0 (by simp) with ⟨a, ha1, ha2⟩
      exact ⟨a, by omega, by omega, by simpa using ha2⟩
    show (match retryFetch db (failsAt k) c0 maxTries 0 with
      | none => Except.error ⟨c0⟩
      | some docs =>
        match fetchChunks db failsAt maxTries rest (k + 1) with
        | .error e => Except.error e
        | .ok ds => Except.ok (docs ++ ds)) = Except.ok ((c0 :: rest).flatten.map db)
    rw [hsucc]
    have hrec : fetchChunks db failsAt maxTries rest (k + 1) = .ok (rest.flatten.map db) := by
      apply ih (k + 1)
      intro m hm
      rcases hok (m + 1) (by simp; omega) with ⟨a, ha1, ha2⟩
      refine ⟨a, ha1, ?_⟩
      rw [show k + 1 + m = k + (m + 1) from by omega]
      exact ha2
    rw [hrec]
    simp

/-- C2: for every chunked fetch, a chunk whose request fails transiently is
retried up to max_tries_per_chunk times; if every try of some chunk fails the
whole operation fails with `ChunkRetrievalError` carrying that chunk's
identifiers and returns no results at all (already-fetched chunks are
discarded); and if every chunk succeeds within the retry bound the full
concatenated result is returned. -/
theorem c2_retry_exhaustion (db : Nat → Nat) (failsAt : Nat → Nat → Bool)
    (ids : List Nat) (size maxTries : Nat) :
    (∀ i c, (chunks size ids)[i]? = some c →
      (∀ a, a < maxTries → failsAt i a = true) →
      (∀ j, j < i → ∃ a, a < maxTries ∧ failsAt j a = false) →
      chunkedFetchRetry db failsAt ids size maxTries = .error ⟨c⟩)
    ∧ ((∀ j, j < (chunks size ids).length → ∃ a, a < maxTries ∧ failsAt j a = false) →
        chunkedFetchRetry db failsAt ids size maxTries
          = .ok (((chunks size ids).flatten).map db)) := by
  constructor
  · intro i c hc hfail hok
    apply fetchChunks_error db failsAt maxTries (chunks size ids) 0 i c hc
    · intro a ha
      rw [Nat.zero_add]
      exact hfail a ha
    · intro j hj
      rw [Nat.zero_add]
      exact hok j hj
  · intro hok
    apply fetchChunks_ok db failsAt maxTries (chunks size ids) 0
    intro j hj
    rw [Nat.zero_add]
    exact hok j hj

/-- C2 witness: four identifiers in two chunks of two, two tries per chunk;
chunk 0 fails once then succeeds, chunk 1 fails both tries, so the fetch fails
with a `ChunkRetrievalError` carrying chunk 1's identifiers and chunk 0's
already-fetched results are discarded. -/
theorem c2_retry_exhaustion_witness :
    chunkedFetchRetry (fun x => x * 10)
        (fun i a => if i = 0 then decide (a = 0) else true) [1, 2, 3, 4] 2 2
      = .error ⟨[3, 4]⟩ := by
  apply (c2_retry_exhaustion (fun x => x * 10)
    (fun i a => if i = 0 then decide (a = 0) else true) [1, 2, 3, 4] 2 2).1 1 [3, 4]
  · decide
  · decide
  · intro j hj
    refine ⟨1, by omega, ?_⟩
    have hj0 : j = 0 := by omega
    subst hj0
    decide

/-- Modelled from the spec: the chunked search with the optional `num_chunks`
cap — if `num_chunks` is set, only the first `num_chunks` chunks are processed
(spec §4.2 step 3), each chunk's records are fetched from the backend `db` and
the results are concatenated in chunk order. -/
def chunkedSearch (db : Nat → β) (ids : List Nat) (size : Nat)
    (numChunks : Option Nat) : List β :=
  let cs := chunks size ids
  let capped := match numChunks with
    | some k => cs.take k
    | none => cs
  (capped.map (fun c => c.map db)).flatten

/-- C3: for every criteria matching the sorted identifier list `ids`, every
positive chunk_size and every cap num_chunks = k, the chunked search returns
exactly the first k * chunk_size results of the sorted identifier list (or all
of them if fewer), in sorted order. -/
theorem c3_num_chunks_cap (db : Nat → Nat) (ids : List Nat) (size k : Nat)
    (hs : 0 < size) (hsorted : List.Sorted (· ≤ ·) ids) :
    chunkedSearch db ids size (some k) = (ids.take (k * size)).map db
    ∧ List.Sorted (· ≤ ·) (chunkedSearch (fun x => x) ids size (some k)) := by
  have hgen : ∀ (f : Nat → Nat),
      chunkedSearch f ids size (some k) = (ids.take (k * size)).map f := by
    intro f
    show (((chunks size ids).take k).map (fun c => c.map f)).flatten
        = (ids.take (k * size)).map f
    rw [← List.map_flatten, chunks_take_flatten size hs]
  refine ⟨hgen db, ?_⟩
  rw [hgen (fun x => x)]
  have : (ids.take (k * size)).map (fun x => x) = ids.take (k * size) := List.map_id' _
  rw [this]
  exact hsorted.sublist (List.take_sublist (k * size) ids)

/-- C3 witness: five sorted identifiers, chunk_size 2 and num_chunks 2 return
exactly the first four results. -/
theorem c3_num_chunks_cap_witness :
    chunkedSearch (fun x => x + 1) [1, 2, 3, 4, 5] 2 (some 2)
        = ([1, 2, 3, 4, 5].take (2 * 2)).map (fun x => x + 1)
    ∧ List.Sorted (· ≤ ·) (chunkedSearch (fun x => x) [1, 2, 3, 4, 5] 2 (some 2)) :=
  c3_num_chunks_cap (fun x => x + 1) [1, 2, 3, 4, 5] 2 2 (by decide) (by decide)

/-- Session state shared by the facade and every resource client
(`MPRester.__init__` creates it, `MPRester.__exit__` closes it).  `closeCount`
counts how many times `close` has been called on it. -/
structure Session where
  closeCount : Nat
deriving DecidableEq

/-- The `close` call on a `requests.Session`. -/
def Session.close (s : Session) : Session :=
  ⟨s.closeCount + 1⟩

/-- Error taxonomy surfaced by the facade methods of `matproj.py` and, for
`get_by_id`, by the spec's Resource Client contract (§4.1, §7). -/
inductive MPError where
  | notImplementedError
  | valueError
  | validationError
  | notFoundError
deriving DecidableEq

/-- A materials document as used by `matproj.py`: only its `material_id` field
matters to the claims; ids are modelled as `Nat`. -/
structure MatDoc where
  material_id : Nat
deriving DecidableEq

/-- From `MPRester.query` (matproj.py lines 371-431): the advanced-query
convenience method; its body is `raise NotImplementedError`.  Criteria are
modelled as a field-to-constraint mapping over `Nat` codes, properties as a
list of field codes. -/
def MPRester.query (criteria : List (Nat × Nat)) (properties : List Nat)
    (sort_field : Option Nat) (ascending : Option Bool) (num_chunks : Option Nat)
    (chunk_size : Nat) (all_fields : Bool) (fields : Option (List Nat)) :
    Except MPError (List MatDoc) :=
  .error .notImplementedError

/-- From `MPRester.get_materials_id_references` (matproj.py lines 220-230):
its body is `raise NotImplementedError`.  The BibTeX result would be text,
modelled as `List Char`. -/
def MPRester.get_materials_id_references (material_id : Nat) :
    Except MPError (List Char) :=
  .error .notImplementedError

/-- From `MPRester.get_interface_reactions` (matproj.py lines 611-645): its
body is `raise NotImplementedError`.  `relative_mu` is a float in the source
and unused by the method; it is modelled as an `Option Int`. -/
def MPRester.get_interface_reactions (reactant1 reactant2 : Nat)
    (open_el : Option Nat) (relative_mu : Option Int) (use_hull_energy : Bool) :
    Except MPError (List (Nat × Nat)) :=
  .error .notImplementedError

/-- C4: every unimplemented convenience method of the facade — `query`,
`get_materials_id_references` and `get_interface_reactions` — signals
"not implemented" when called, for every input, rather than returning empty or
placeholder data. -/
theorem c4_not_implemented :
    (∀ criteria properties sort_field ascending num_chunks chunk_size all_fields fields,
      MPRester.query criteria properties sort_field ascending num_chunks chunk_size
          all_fields fields = .error .notImplementedError)
    ∧ (∀ material_id,
      MPRester.get_materials_id_references material_id = .error .notImplementedError)
    ∧ (∀ reactant1 reactant2 open_el relative_mu use_hull_energy,
      MPRester.get_interface_reactions reactant1 reactant2 open_el relative_mu
          use_hull_energy = .error .notImplementedError) :=
  ⟨fun _ _ _ _ _ _ _ _ => rfl, fun _ => rfl, fun _ _ _ _ _ => rfl⟩

/-- From `MPRester.__exit__` (matproj.py lines 134-138): leaving the facade's
`with` scope closes the shared session. -/
def MPRester.exitScope (s : Session) : Session :=
  s.close

/-- Python `with MPRester(...)` semantics: run the body on the shared session;
whether the body returns normally (`Except.ok`) or raises (`Except.error`),
`MPRester.__exit__` runs exactly once afterwards. -/
def withMPRester (body : Session → Except Unit α × Session) (s : Session) :
    Except Unit α × Session :=
  let r := body s
  (r.1, MPRester.exitScope r.2)

/-- C5: for every way the facade's usage scope exits — normal return or any
raised failure — the shared session is closed exactly once, never zero times
and never twice.  The body is assumed not to close the session itself (resource
clients share it by reference without owning it). -/
theorem c5_session_closed_once (body : Session → Except Unit α × Session)
    (s0 : Session) (hbody : ∀ t, ((body t).2).closeCount = t.closeCount) :
    (withMPRester body s0).1 = (body s0).1
    ∧ ((withMPRester body s0).2).closeCount = s0.closeCount + 1 := by
  refine ⟨rfl, ?_⟩
  show ((body s0).2.close).closeCount = s0.closeCount + 1
  rw [Session.close, hbody s0]

/-- C5 witness: a body that raises; starting from a fresh session the close
count after the scope exits is exactly one. -/
theorem c5_session_closed_once_witness :
    (withMPRester (fun t => ((Except.error () : Except Unit Nat), t)) ⟨0⟩).1
        = ((fun (t : Session) => ((Except.error () : Except Unit Nat), t)) ⟨0⟩).1
    ∧ ((withMPRester (fun t => ((Except.error () : Except Unit Nat), t)) ⟨0⟩).2).closeCount
        = (0 : Nat) + 1 :=
  c5_session_closed_once (fun t => ((Except.error () : Except Unit Nat), t)) ⟨0⟩
    (fun t => rfl)

/-- From `MPRester.__init__` (matproj.py line 104): the attribute name under
which a resource client is exposed is its endpoint suffix with every slash
replaced by an underscore. -/
def attrName (suffix : List Char) : List Char :=
  suffix.map (fun c => if c = '/' then '_' else c)

/-- A resource client (`BaseRester` subclass instance): it knows its endpoint
suffix and holds the shared session by reference. -/
structure Rester where
  suffix : List Char
  session : Session
deriving DecidableEq

/-- The facade after construction: the session it owns and the resource
clients it exposes, each under its attribute name. -/
structure Facade where
  session : Session
  resters : List (List Char × Rester)
deriving DecidableEq

/-- From `MPRester.__init__` (matproj.py lines 84-105): create one session,
then for each registered `BaseRester` subclass (given here by its endpoint
suffix, in registration order) construct one resource client sharing that
session and expose it under `attrName` of its suffix. -/
def MPRester.construct (suffixes : List (List Char)) : Facade :=
  let s : Session := ⟨0⟩
  { session := s
    resters := suffixes.map (fun suf => (attrName suf, ⟨suf, s⟩)) }

/-- C7: at facade construction, exactly one resource client is created per
known resource type, each is exposed under the stable name derived from its
endpoint suffix (the suffix with '/' replaced by '_'), and all share the single
session. -/
theorem c7_one_rester_per_type (suffixes : List (List Char)) :
    ((MPRester.construct suffixes).resters).length = suffixes.length
    ∧ ((MPRester.construct suffixes).resters).map (fun p => p.2.suffix) = suffixes
    ∧ (∀ p ∈ (MPRester.construct suffixes).resters,
        p.1 = attrName p.2.suffix
        ∧ p.2.session = (MPRester.construct suffixes).session) := by
  refine ⟨by simp [MPRester.construct], ?_, ?_⟩
  · show (suffixes.map (fun suf => (attrName suf, (⟨suf, ⟨0⟩⟩ : Rester)))).map
        (fun p => p.2.suffix) = suffixes
    rw [List.map_map]
    exact List.map_id' suffixes
  · intro p hp
    have hp2 : p ∈ suffixes.map (fun suf => (attrName suf, (⟨suf, ⟨0⟩⟩ : Rester))) := hp
    rcases List.mem_map.mp hp2 with ⟨suf, _, hsuf⟩
    subst hsuf
    exact ⟨rfl, rfl⟩

/-- From `MPRester.get_materials_id_from_task_id` (matproj.py lines 193-218):
search the materials resource for documents whose task list contains
`task_id`; on exactly one document return its `material_id`, on more than one
raise `ValueError`, on zero warn and return `None`.  `searchTasks` models the
`materials.search(task_ids=[task_id], fields=["material_id"])` call; the
second component of the result is the list of warnings emitted, each carrying
the task id it mentions. -/
def MPRester.get_materials_id_from_task_id (searchTasks : Nat → List MatDoc)
    (task_id : Nat) : Except MPError (Option Nat) × List Nat :=
  let docs := searchTasks task_id
  if h : docs.length = 1 then
    (.ok (some (docs.get ⟨0, by omega⟩).material_id), [])
  else if 1 < docs.length then
    (.error .valueError, [])
  else
    (.ok none, [task_id])

/-- C8: for every task_id, `get_materials_id_from_task_id` returns the
material_id when exactly one document matches, returns None after emitting a
warning (without raising) when zero documents match, and raises ValueError
when more than one document matches. -/
theorem c8_task_id_lookup (searchTasks : Nat → List MatDoc) (task_id : Nat) :
    (∀ d, searchTasks task_id = [d] →
      MPRester.get_materials_id_from_task_id searchTasks task_id
        = (.ok (some d.material_id), []))
    ∧ (searchTasks task_id = [] →
      MPRester.get_materials_id_from_task_id searchTasks task_id
        = (.ok none, [task_id]))
    ∧ (1 < (searchTasks task_id).length →
      MPRester.get_materials_id_from_task_id searchTasks task_id
        = (.error .valueError, [])) := by
  refine ⟨?_, ?_, ?_⟩
  · intro d hd
    simp [MPRester.get_materials_id_from_task_id, hd]
  · intro hd
    simp [MPRester.get_materials_id_from_task_id, hd]
  · intro hlen
    have h1 : (searchTasks task_id).length ≠ 1 := by omega
    simp [MPRester.get_materials_id_from_task_id, h1, hlen]

/-- C8 witness: a backend where task 7 matches exactly the document mp-42. -/
theorem c8_task_id_lookup_witness :
    MPRester.get_materials_id_from_task_id
        (fun t => if t = 7 then [⟨42⟩] else []) 7
      = (.ok (some (42 : Nat)), []) :=
  (c8_task_id_lookup (fun t => if t = 7 then [⟨42⟩] else []) 7).1 ⟨42⟩ (by decide)

/-- A surface record inside a surface-properties document (matproj.py
`get_surface_data`): only its miller index matters to the claims.  The
`surface.dict()` payload is modelled as the record itself. -/
structure Surface where
  miller_index : List Int
deriving DecidableEq

/-- A surface-properties document: its list of surfaces.  The `doc.dict()`
payload is modelled as the document itself. -/
structure SurfaceDoc where
  surfaces : List Surface
deriving DecidableEq

/-- The possible payloads returned by `get_surface_data`: one surface's dict,
or the full document's dict. -/
inductive SurfaceData where
  | one (s : Surface)
  | full (d : SurfaceDoc)
deriving DecidableEq

/-- From `MPRester.get_surface_data` (matproj.py lines 505-537): `doc` is the
surface-properties document for the material; `eqIndices` models the external
pure function `get_symmetrically_equivalent_miller_indices` applied to the
material's structure.  If `miller_index` is truthy (a non-empty list), scan
`doc.surfaces` in order and return the dict of the first surface whose miller
index is among the symmetrically equivalent ones; falling off the loop returns
`None` (the Python function ends without a return).  Otherwise return the full
document's dict. -/
def MPRester.get_surface_data (doc : SurfaceDoc)
    (eqIndices : List Int → List (List Int)) (miller_index : List Int) :
    Option SurfaceData :=
  if miller_index ≠ [] then
    (doc.surfaces.find? (fun s => decide (s.miller_index ∈ eqIndices miller_index))).map
      SurfaceData.one
  else
    some (SurfaceData.full doc)

/-- C9: for every material document and non-empty miller_index, if none of the
document's surfaces has a miller index symmetrically equivalent to the
requested one, `get_surface_data` returns None rather than raising or
returning the full document; the full document dict is returned exactly when
miller_index is falsy (the empty list). -/
theorem c9_surface_data (doc : SurfaceDoc) (eqIndices : List Int → List (List Int))
    (miller_index : List Int) :
    (miller_index ≠ [] →
      (∀ s ∈ doc.surfaces, s.miller_index ∉ eqIndices miller_index) →
      MPRester.get_surface_data doc eqIndices miller_index = none)
    ∧ MPRester.get_surface_data doc eqIndices [] = some (SurfaceData.full doc)
    ∧ (∀ d, MPRester.get_surface_data doc eqIndices miller_index
        = some (SurfaceData.full d) → miller_index = [] ∧ d = doc) := by
  refine ⟨?_, by simp [MPRester.get_surface_data], ?_⟩
  · intro hmi hnone
    have hfind : doc.surfaces.find?
        (fun s => decide (s.miller_index ∈ eqIndices miller_index)) = none := by
      apply List.find?_eq_none.mpr
      intro s hs
      simpa using hnone s hs
    simp [MPRester.get_surface_data, hmi, hfind]
  · intro d hd
    by_cases hmi : miller_index = []
    · subst hmi
      simp [MPRester.get_surface_data] at hd
      exact ⟨rfl, hd.symm⟩
    · exfalso
      simp [MPRester.get_surface_data, hmi] at hd

/-- C9 witness: a document with one surface of miller index (1,0,0), symmetric
equivalence being plain equality; requesting (0,0,1) matches no surface and
yields None. -/
theorem c9_surface_data_witness :
    MPRester.get_surface_data ⟨[⟨[1, 0, 0]⟩]⟩ (fun mi => [mi]) [0, 0, 1] = none :=
  (c9_surface_data ⟨[⟨[1, 0, 0]⟩]⟩ (fun mi => [mi]) [0, 0, 1]).1 (by decide)
    (by decide)

/-- From `MPRester.get_materials_ids` (matproj.py lines 232-250): search the
materials resource for the formula or chemical system (formulas are modelled
as `Nat` codes), project out each document's `material_id`, and return the
Python `sorted(...)` of them, modelled by `List.mergeSort` with the `≤`
order. -/
def MPRester.get_materials_ids (searchFormula : Nat → List MatDoc)
    (chemsys_formula : Nat) : List Nat :=
  ((searchFormula chemsys_formula).map (fun d => d.material_id)).mergeSort

/-- C10: for every chemsys_formula, `get_materials_ids` returns exactly the
matching material identifiers (as a permutation of the projected ids), in
sorted ascending order. -/
theorem c10_sorted_materials_ids (searchFormula : Nat → List MatDoc)
    (chemsys_formula : Nat) :
    List.Sorted (· ≤ ·) (MPRester.get_materials_ids searchFormula chemsys_formula)
    ∧ (MPRester.get_materials_ids searchFormula chemsys_formula).Perm
        ((searchFormula chemsys_formula).map (fun d => d.material_id)) :=
  ⟨List.sorted_mergeSort' _, List.mergeSort_perm _ _⟩

/-- Modelled from the spec: `get_document_by_id` of `mp_api/core/client.py` is
not under src/ (only its tests and callers are).  Per the Resource Client
contract (§4.1, §7, §8): `get_by_id` fails with `ValidationError` if the
identifier is empty or does not match the resource's identifier pattern,
checked before any request is sent; otherwise it issues the lookup request and
fails with `NotFoundError` if no document matches.  Identifiers are modelled
as `List Char`, `pattern` decides the resource's identifier format, `db`
models the remote lookup, and the `Nat` component counts the requests sent to
the transport. -/
def get_by_id (pattern : List Char → Bool) (db : List Char → Option MatDoc)
    (identifier : List Char) : Except MPError MatDoc × Nat :=
  if identifier = [] ∨ pattern identifier = false then
    (.error .validationError, 0)
  else
    match db identifier with
    | none => (.error .notFoundError, 1)
    | some doc => (.ok doc, 1)

/-- C6: for every identifier, `get_by_id` raises NotFoundError when the
identifier is well-formed but matches no document, and raises ValidationError
— before any request is sent — when the identifier is empty or does not match
the resource's identifier pattern. -/
theorem c6_get_by_id_errors (pattern : List Char → Bool)
    (db : List Char → Option MatDoc) (identifier : List Char) :
    (identifier = [] ∨ pattern identifier = false →
      get_by_id pattern db identifier = (.error .validationError, 0))
    ∧ (identifier ≠ [] → pattern identifier = true → db identifier = none →
      get_by_id pattern db identifier = (.error .notFoundError, 1))
    ∧ (∀ doc, identifier ≠ [] → pattern identifier = true →
      db identifier = some doc →
      get_by_id pattern db identifier = (.ok doc, 1)) := by
  refine ⟨?_, ?_, ?_⟩
  · intro h
    simp [get_by_id, h]
  · intro hne hp hdb
    simp [get_by_id, hne, hp, hdb]
  · intro doc hne hp hdb
    simp [get_by_id, hne, hp, hdb]

/-- C6 witness: with the mp- identifier pattern and an empty remote resource,
the malformed identifier "abc" is rejected with ValidationError and zero
requests, and the well-formed identifier "mp-1a" of the test suite yields
NotFoundError after one request. -/
theorem c6_get_by_id_errors_witness :
    get_by_id (fun s => decide (s.take 3 = ['m', 'p', '-'])) (fun _ => none)
        ['a', 'b', 'c'] = (.error .validationError, 0)
    ∧ get_by_id (fun s => decide (s.take 3 = ['m', 'p', '-'])) (fun _ => none)
        ['m', 'p', '-', '1', 'a'] = (.error .notFoundError, 1) :=
  ⟨(c6_get_by_id_errors (fun s => decide (s.take 3 = ['m', 'p', '-']))
      (fun _ => none) ['a', 'b', 'c']).1 (by decide),
    (c6_get_by_id_errors (fun s => decide (s.take 3 = ['m', 'p', '-']))
      (fun _ => none) ['m', 'p', '-', '1', 'a']).2.1 (by decide) (by decide) rfl⟩
